import Mathlib

/-
Verification of the Merkle Patricia Trie implementation
(package trie: src/trie.go; package merkle_patricia_trie: src/unnamed/part_001).

Shallow embedding conventions:
- Byte slices are `List Nat`; hex-key strings are `List Char`.
- The gob encoder stream is modelled as a list of tagged items (`GobItem`):
  `gob.Encoder.Encode` on a Go string yields `gstr`, on a byte slice `gbytes`.
  This keeps the string/byte-blob distinction that the pre-image format relies
  on while abstracting gob byte-level framing.
- The pluggable digest (crypto.Hash) is a total function `Digest` from a gob
  stream to bytes; digest failures do not occur for a total digest, so the
  error returns of UpdateHash / NewNodeExtension are always nil and elided.
- Go pointer mutation is modelled by state passing: every function that
  receives a node pointer returns the (possibly mutated) node alongside its
  result, mirroring each assignment of the source.
- Go `panic` is distinguished from a returned `error` by the `GoErr` type.
- The recursive trie walks recurse on an explicit fuel (`Nat`) argument so all
  definitions compute by kernel reduction; the source recursion depth is
  bounded by the hex key length, so any fuel beyond that bound is equivalent.
-/

set_option maxRecDepth 100000

namespace MPT

abbrev Bytes := List Nat

abbrev HexKey := List Char

/-- One item written to the gob stream: a Go string or a Go byte slice. -/
inductive GobItem : Type where
  | gstr : List Char → GobItem
  | gbytes : Bytes → GobItem
deriving DecidableEq

/-- The injected digest (crypto.Hash): gob-encoded pre-image to hash blob. -/
abbrev Digest := List GobItem → Bytes

/-- A Go failure outcome: an error value returned to the caller, or a panic. -/
inductive GoErr : Type where
  | err : String → GoErr
  | goPanic : String → GoErr
deriving DecidableEq

def strChars (s : String) : List Char := s.toList

def strBytes (s : String) : Bytes := s.toList.map Char.toNat

/-- Node (src/trie.go): nodeExtension with fields key, next, value, hash, or
nodeBranch with fields children (16 slots, Go type NodeExtension) and hash. -/
inductive Node : Type where
  | ext : HexKey → Option Node → Option Bytes → Bytes → Node
  | branch : List (Option Node) → Bytes → Node

/-- Accessor nodeBase.Hash(): the cached hash blob. The source panics when the cached
hash is empty; after construction every node has a refreshed hash, so the
panic branch is unreachable and the accessor reads the field. -/
def Node.hashB : Node → Bytes
  | .ext _ _ _ h => h
  | .branch _ h => h

def Node.keyOf : Node → HexKey
  | .ext k _ _ _ => k
  | .branch _ _ => []

def ChildIndexCount : Nat := 16

/-- toChildIndex (src/trie.go lines 603-619), translated as written: digits
map to 0-9 and letters map to `ch - 'a'`, i.e. 0-5. The invalid-character
panic branch is rendered as the out-of-range slot 16, which every slot read
treats as absent; all keys reaching it are hex strings, so it is unreachable. -/
def toChildIndex (ch : Char) : Nat :=
  if '0' ≤ ch ∧ ch ≤ '9' then ch.toNat - '0'.toNat
  else if 'a' ≤ ch ∧ ch ≤ 'f' then ch.toNat - 'a'.toNat
  else 16

def hexDigits : List Char := strChars "0123456789abcdef"

def hexDigitChar (n : Nat) : Char := hexDigits.getD n '0'

/-- Encoder hex.EncodeToString: each byte to high nibble then low nibble. -/
def hexEncode (bs : Bytes) : HexKey :=
  (bs.map (fun b => [hexDigitChar (b / 16 % 16), hexDigitChar (b % 16)])).flatten

/-- The scan loop of commonPrefix: for i in [1, minLen), return i at the first
mismatch, otherwise minLen. `rem` counts the remaining iterations. -/
def cpScan (a b : HexKey) : Nat → Nat → Nat
  | 0, i => i
  | rem + 1, i => if a.getD i ' ' ≠ b.getD i ' ' then i else cpScan a b rem (i + 1)

/-- Function MerklePatriciaTrie.commonPrefix (src/unnamed/part_001 lines 53-67). -/
def commonPrefix (a b : HexKey) : Except String HexKey :=
  if a.length = 0 ∨ b.length = 0 then .error "length of the string must be positive"
  else if a.getD 0 ' ' ≠ b.getD 0 ' ' then .error "no common prefix"
  else .ok (a.take (cpScan a b (min a.length b.length - 1) 1))

/-- Methods nodeExtension.Serialize and nodeBranch.Serialize (src/trie.go), as the
sequence of gob items written to the buffer. Note the source asymmetry: the
absent-next marker is `[]byte("NC")` (a byte blob) while the branch
empty-slot marker is the string "NC". -/
def Node.serialize : Node → List GobItem
  | .ext key next value _ =>
    [GobItem.gstr (strChars "E"), GobItem.gstr key]
      ++ (match next with
          | some n => [GobItem.gstr (strChars "C"), GobItem.gbytes n.hashB]
          | none => [GobItem.gbytes (strBytes "NC")])
      ++ (match value with
          | some v => [GobItem.gstr (strChars "V"), GobItem.gbytes v]
          | none => [GobItem.gstr (strChars "NV")])
  | .branch children _ =>
    GobItem.gstr (strChars "B")
      :: (children.map (fun child =>
            match child with
            | some n => [GobItem.gstr (strChars "C"), GobItem.gbytes n.hashB]
            | none => [GobItem.gstr (strChars "NC")])).flatten

/-- UpdateHash: recompute and cache the hash of the node's serialization. -/
def updateHash (hs : Digest) : Node → Node
  | .ext key next value _ => .ext key next value (hs (Node.serialize (.ext key next value [])))
  | .branch children _ => .branch children (hs (Node.serialize (.branch children [])))

def emptyChildren : List (Option Node) := List.replicate ChildIndexCount none

def getSlot (cs : List (Option Node)) (i : Nat) : Option Node := cs.getD i none

def setSlot (cs : List (Option Node)) (i : Nat) (x : Option Node) : List (Option Node) :=
  cs.set i x

/-- Method nodeBranch.ChildAt. -/
def childAt (cs : List (Option Node)) (c : Char) : Option Node :=
  getSlot cs (toChildIndex c)

/-- Method nodeBranch.Count. -/
def branchCount (cs : List (Option Node)) : Nat :=
  cs.countP (fun c => c.isSome)

/-- Method nodeBranch.First: the first non-nil child. -/
def branchFirst (cs : List (Option Node)) : Option Node :=
  cs.findSome? id

/-- Method nodeBranch.Append: place n at the slot of its first key character,
failing if the slot is occupied. The source indexes n.Key()[0]; an empty key
(out-of-range panic in Go) is rendered as the same error. -/
def branchAppend (cs : List (Option Node)) (n : Node) : Except String (List (Option Node)) :=
  match n.keyOf with
  | [] => .error "nodeBranch.Append() failed. Child node already exists"
  | c :: _ =>
    if (getSlot cs (toChildIndex c)).isSome then
      .error "nodeBranch.Append() failed. Child node already exists"
    else .ok (setSlot cs (toChildIndex c) (some n))

/-- Method nodeBranch.Delete: clear the slot of character c, failing if empty. -/
def branchDelete (cs : List (Option Node)) (c : Char) : Except String (List (Option Node)) :=
  if (getSlot cs (toChildIndex c)).isNone then
    .error "nodeBranch.Delete() failed. Child node does not exist"
  else .ok (setSlot cs (toChildIndex c) none)

/-- NewNodeExtension: build the node and refresh its hash (digest total). -/
def NewNodeExtension (hs : Digest) (key : HexKey) (next : Option Node)
    (value : Option Bytes) : Node :=
  updateHash hs (.ext key next value [])

/-- NewNodeBranchWithChildren (src/trie.go lines 109-141): reject an empty
key or two children with the same first character, then place both children
by toChildIndex of their first characters and refresh the hash. -/
def NewNodeBranchWithChildren (hs : Digest) (a b : Node) : Except String Node :=
  match a.keyOf, b.keyOf with
  | [], _ => .error "key is empty"
  | _, [] => .error "key is empty"
  | ca :: _, cb :: _ =>
    if ca = cb then .error "two children have duplicate index"
    else
      .ok (updateHash hs (.branch
        (setSlot (setSlot emptyChildren (toChildIndex ca) (some a)) (toChildIndex cb) (some b))
        []))

/-- NewMerklePatriciaTrie: an empty root branch with its hash initialized. -/
def NewMerklePatriciaTrie (hs : Digest) : Node :=
  updateHash hs (.branch emptyChildren [])

def dupKeyMsg : String := "MerklePatriciaTrie.insertKeyToExtension() failed. Key already exists"

/-- insertToExtension and insertToBranch (src/unnamed/part_001 lines 69-176)
merged into one function: the `.ext` arm is insertToExtension, the `.branch`
arm is insertToBranch (Go dispatches the two by static interface type).
State-passing result: (error if any, the node after mutation). -/
def insertToNode (hs : Digest) : Nat → HexKey → Bytes → Node → Option GoErr × Node
  | 0, _, _, node => (some (GoErr.goPanic "recursion limit"), node)
  | fuel + 1, key, vo, node =>
    match node with
    | .ext nkey next value hash =>
      if key = nkey then
        if value.isSome then (some (GoErr.err dupKeyMsg), .ext nkey next value hash)
        else (none, updateHash hs (.ext nkey next (some vo) hash))
      else
        match commonPrefix nkey key with
        | .error e =>
          (some (GoErr.goPanic ("Key must have the common prefix which has at least one character. err: " ++ e)),
           .ext nkey next value hash)
        | .ok p =>
          if p = nkey then
            -- 1. Extend
            match next with
            | none =>
              let newTailNode := NewNodeExtension hs (key.drop p.length) none (some vo)
              (none, updateHash hs (.ext nkey (some newTailNode) value hash))
            | some (.ext ckey cnext cvalue chash) =>
              if (key.drop p.length).headD ' ' = ckey.headD ' ' then
                match insertToNode hs fuel (key.drop p.length) vo (.ext ckey cnext cvalue chash) with
                | (some e, next2) => (some e, .ext nkey (some next2) value hash)
                | (none, next2) => (none, updateHash hs (.ext nkey (some next2) value hash))
              else
                let newKeyNode := NewNodeExtension hs (key.drop p.length) none (some vo)
                match NewNodeBranchWithChildren hs (.ext ckey cnext cvalue chash) newKeyNode with
                | .error e => (some (GoErr.err e), .ext nkey (some (.ext ckey cnext cvalue chash)) value hash)
                | .ok newBranch => (none, updateHash hs (.ext nkey (some newBranch) value hash))
            | some (.branch ccs chash) =>
              match insertToNode hs fuel (key.drop p.length) vo (.branch ccs chash) with
              | (some e, next2) => (some e, .ext nkey (some next2) value hash)
              | (none, next2) => (none, updateHash hs (.ext nkey (some next2) value hash))
          else if p = key then
            let tailNode := NewNodeExtension hs (nkey.drop p.length) next value
            (none, updateHash hs (.ext p (some tailNode) (some vo) hash))
          else
            -- 2. Divide (Ext + Branch + Ext * 2)
            let nodeTailNode := NewNodeExtension hs (nkey.drop p.length) next value
            let newTailNode := NewNodeExtension hs (key.drop p.length) none (some vo)
            match NewNodeBranchWithChildren hs nodeTailNode newTailNode with
            | .error e => (some (GoErr.err e), .ext nkey next value hash)
            | .ok newBranch => (none, updateHash hs (.ext p (some newBranch) none hash))
    | .branch cs hash =>
      match childAt cs (key.headD ' ') with
      | some child =>
        match insertToNode hs fuel key vo child with
        | (some e, child2) =>
          (some e, .branch (setSlot cs (toChildIndex (key.headD ' ')) (some child2)) hash)
        | (none, child2) =>
          (none, updateHash hs (.branch (setSlot cs (toChildIndex (key.headD ' ')) (some child2)) hash))
      | none =>
        let n := NewNodeExtension hs key none (some vo)
        match branchAppend cs n with
        | .error e => (some (GoErr.err e), .branch cs hash)
        | .ok cs2 => (none, updateHash hs (.branch cs2 hash))

/-- Method MerklePatriciaTrie.Insert (src/unnamed/part_001 lines 178-188). -/
def Insert (hs : Digest) (fuel : Nat) (t : Node) (key value : Bytes) : Option GoErr × Node :=
  if key.length = 0 then (some (GoErr.err "length of key must be positive"), t)
  else
    match insertToNode hs fuel (hexEncode key) value t with
    | (some e, t2) => (some e, t2)
    | (none, t2) => (none, updateHash hs t2)

def notFoundMsg : String := "ValueObject not found"

/-- deleteKeyInExtension and deleteKeyInBranch (src/unnamed/part_001 lines
190-292) merged into one function (the `.ext` arm is deleteKeyInExtension,
the `.branch` arm is deleteKeyInBranch). Result: (shouldDelete flag or
failure, the node after mutation). Note that in the exact-match case with a
Branch next the source refreshes the hash without clearing the value. -/
def deleteKeyInNode (hs : Digest) : Nat → HexKey → Node → Except GoErr Bool × Node
  | 0, _, node => (.error (GoErr.goPanic "recursion limit"), node)
  | fuel + 1, key, node =>
    match node with
    | .ext nkey next value hash =>
      if key = nkey then
        if value.isNone then (.error (GoErr.err "deleteKey is not found"), .ext nkey next value hash)
        else
          match next with
          | none => (.ok true, .ext nkey next value hash)
          | some (.ext ckey cnext cvalue _) =>
            (.ok false, updateHash hs (.ext (nkey ++ ckey) cnext cvalue hash))
          | some (.branch ccs chash) =>
            (.ok false, updateHash hs (.ext nkey (some (.branch ccs chash)) value hash))
      else
        match commonPrefix nkey key with
        | .error e => (.error (GoErr.goPanic e), .ext nkey next value hash)
        | .ok p =>
          if p = key then (.error (GoErr.err notFoundMsg), .ext nkey next value hash)
          else if p ≠ nkey then (.error (GoErr.err notFoundMsg), .ext nkey next value hash)
          else
            match next with
            | none => (.error (GoErr.err notFoundMsg), .ext nkey next value hash)
            | some (.ext ckey cnext cvalue chash) =>
              if (key.drop p.length).headD ' ' ≠ ckey.headD ' ' then
                (.error (GoErr.err notFoundMsg), .ext nkey (some (.ext ckey cnext cvalue chash)) value hash)
              else
                match deleteKeyInNode hs fuel (key.drop p.length) (.ext ckey cnext cvalue chash) with
                | (.error e, next2) => (.error e, .ext nkey (some next2) value hash)
                | (.ok false, next2) => (.ok false, updateHash hs (.ext nkey (some next2) value hash))
                | (.ok true, _) =>
                  if value.isSome then (.ok false, updateHash hs (.ext nkey none value hash))
                  else (.ok true, .ext nkey none value hash)
            | some (.branch ccs chash) =>
              match deleteKeyInNode hs fuel (key.drop p.length) (.branch ccs chash) with
              | (.error e, next2) => (.error e, .ext nkey (some next2) value hash)
              | (.ok false, next2) => (.ok false, updateHash hs (.ext nkey (some next2) value hash))
              | (.ok true, next2) =>
                match next2 with
                | .branch ccs2 _ =>
                  let newNext := branchFirst ccs2
                  if value.isSome then (.ok false, updateHash hs (.ext nkey newNext value hash))
                  else
                    match newNext with
                    | none =>
                      (.error (GoErr.goPanic "newNext must not be nil because the deleting branch must have one child."),
                       .ext nkey (some next2) value hash)
                    | some (.ext fkey fnext fvalue _) =>
                      (.ok false, updateHash hs (.ext (nkey ++ fkey) fnext fvalue hash))
                    | some (.branch fcs fhash) =>
                      -- unreachable: branch children have Go type NodeExtension
                      (.ok false, updateHash hs (.ext nkey (some (.branch fcs fhash)) value hash))
                | .ext _ _ _ _ =>
                  -- unreachable: deleting inside a branch leaves it a branch
                  (.error (GoErr.goPanic "Unknown node type"), .ext nkey (some next2) value hash)
    | .branch cs hash =>
      match childAt cs (key.headD ' ') with
      | none => (.error (GoErr.err "ValueObject not found under branch"), .branch cs hash)
      | some child =>
        match deleteKeyInNode hs fuel key child with
        | (.error e, child2) =>
          (.error e, .branch (setSlot cs (toChildIndex (key.headD ' ')) (some child2)) hash)
        | (.ok false, child2) =>
          (.ok false, updateHash hs (.branch (setSlot cs (toChildIndex (key.headD ' ')) (some child2)) hash))
        | (.ok true, child2) =>
          let cs1 := setSlot cs (toChildIndex (key.headD ' ')) (some child2)
          match branchDelete cs1 (key.headD ' ') with
          | .error e => (.error (GoErr.err e), .branch cs1 hash)
          | .ok cs2 =>
            if branchCount cs2 = 1 then (.ok true, .branch cs2 hash)
            else (.ok false, updateHash hs (.branch cs2 hash))

/-- Method MerklePatriciaTrie.Delete (src/unnamed/part_001 lines 294-304): the
shouldDelete flag is ignored at the root branch. -/
def Delete (hs : Digest) (fuel : Nat) (t : Node) (key : Bytes) : Option GoErr × Node :=
  if key.length = 0 then (some (GoErr.err "length of key must be positive"), t)
  else
    match deleteKeyInNode hs fuel (hexEncode key) t with
    | (.error e, t2) => (some e, t2)
    | (.ok _, t2) => (none, updateHash hs t2)

abbrev MerkleSet := List (Option Bytes)

abbrev MerklePath := List MerkleSet

/-- The per-slot hash list a branch contributes to the Merkle path:
each child's cached hash, nil for an empty slot. -/
def childHashes (cs : List (Option Node)) : MerkleSet :=
  cs.map (fun c => c.map Node.hashB)

/-- merklePathInExtension and merklePathInBranch (src/unnamed/part_001 lines
306-370) merged into one function; the source performs no mutation, which
the state-passing rendering makes explicit by threading the node through. -/
def merklePathInNode : Nat → HexKey → Node → Except GoErr MerklePath × Node
  | 0, _, node => (.error (GoErr.goPanic "recursion limit"), node)
  | fuel + 1, key, node =>
    match node with
    | .ext nkey next value hash =>
      if key = nkey then
        if value.isNone then (.error (GoErr.err notFoundMsg), .ext nkey next value hash)
        else (.ok [[some hash]], .ext nkey next value hash)
      else
        match commonPrefix nkey key with
        | .error e => (.error (GoErr.goPanic e), .ext nkey next value hash)
        | .ok p =>
          if p = key then (.error (GoErr.err notFoundMsg), .ext nkey next value hash)
          else if p ≠ nkey then (.error (GoErr.err notFoundMsg), .ext nkey next value hash)
          else
            match next with
            | none => (.error (GoErr.err notFoundMsg), .ext nkey next value hash)
            | some (.ext ckey cnext cvalue chash) =>
              if (key.drop p.length).headD ' ' ≠ ckey.headD ' ' then
                (.error (GoErr.err notFoundMsg), .ext nkey (some (.ext ckey cnext cvalue chash)) value hash)
              else
                match merklePathInNode fuel (key.drop p.length) (.ext ckey cnext cvalue chash) with
                | (.error e, next2) => (.error e, .ext nkey (some next2) value hash)
                | (.ok path, next2) => (.ok (path ++ [[some hash]]), .ext nkey (some next2) value hash)
            | some (.branch ccs chash) =>
              match merklePathInNode fuel (key.drop p.length) (.branch ccs chash) with
              | (.error e, next2) => (.error e, .ext nkey (some next2) value hash)
              | (.ok path, next2) => (.ok (path ++ [[some hash]]), .ext nkey (some next2) value hash)
    | .branch cs hash =>
      match childAt cs (key.headD ' ') with
      | none => (.error (GoErr.err "ValueObject not found under branch"), .branch cs hash)
      | some child =>
        match merklePathInNode fuel key child with
        | (.error e, child2) =>
          (.error e, .branch (setSlot cs (toChildIndex (key.headD ' ')) (some child2)) hash)
        | (.ok path, child2) =>
          let cs2 := setSlot cs (toChildIndex (key.headD ' ')) (some child2)
          (.ok (path ++ [childHashes cs2]), .branch cs2 hash)

/-- Method MerklePatriciaTrie.FindMerklePath (src/unnamed/part_001 lines 372-382). -/
def FindMerklePath (fuel : Nat) (t : Node) (key : Bytes) : Except GoErr MerklePath × Node :=
  if key.length = 0 then (.error (GoErr.err "length of key must be positive"), t)
  else
    match merklePathInNode fuel (hexEncode key) t with
    | (.error e, t2) => (.error e, t2)
    | (.ok path, t2) => (.ok (path ++ [[some t2.hashB]]), t2)

/-- A concrete injective digest used to evaluate the code on concrete inputs:
each gob item is framed as a type tag, a length, and the payload, which is a
faithful abstraction of gob self-describing framing. -/
def gobEnc : Digest := fun items =>
  (items.map (fun it =>
    match it with
    | .gstr s => 0 :: s.length :: s.map Char.toNat
    | .gbytes b => 1 :: b.length :: b)).flatten

/-- Sequential insertion of (key, value) pairs, stopping at the first error,
as the test harness does (src/unnamed/part_000). -/
def insertSeq (hs : Digest) (fuel : Nat) : List (Bytes × Bytes) → Node → Option GoErr × Node
  | [], t => (none, t)
  | (k, v) :: rest, t =>
    match Insert hs fuel t k v with
    | (some e, t2) => (some e, t2)
    | (none, t2) => insertSeq hs fuel rest t2

/-- Storedness of a hex key, the specification-level reading of "the pair is
present": the descent mirrors the dispatch of the trie operations (exact
match at an extension yields its value; a strict extension descends into
next when the first characters agree; a branch dispatches on the first
character). -/
def lookupHex : Nat → HexKey → Node → Option Bytes
  | 0, _, _ => none
  | fuel + 1, key, node =>
    match node with
    | .ext nkey next value _ =>
      if key = nkey then value
      else
        match commonPrefix nkey key with
        | .error _ => none
        | .ok p =>
          if p = nkey then
            match next with
            | none => none
            | some (.ext ckey cnext cvalue chash) =>
              if (key.drop p.length).headD ' ' = ckey.headD ' ' then
                lookupHex fuel (key.drop p.length) (.ext ckey cnext cvalue chash)
              else none
            | some (.branch ccs chash) => lookupHex fuel (key.drop p.length) (.branch ccs chash)
          else none
    | .branch cs _ =>
      match childAt cs (key.headD ' ') with
      | none => none
      | some child => lookupHex fuel key child

/-- Modelled from the spec (§3.2 invariant 3, claim C3): the hex digit that
maps to a child slot, digits 0-9 to 0-9 and letters a-f to 10-15. -/
def specHexDigitIndex (ch : Char) : Nat :=
  if '0' ≤ ch ∧ ch ≤ '9' then ch.toNat - '0'.toNat
  else if 'a' ≤ ch ∧ ch ≤ 'f' then ch.toNat - 'a'.toNat + 10
  else 16

/-- Modelled from the spec (§4.2), the Extension node pre-image: tag "E"
(string); the key (string); if next is present tag "C" (string) followed by
the next hash (byte blob), otherwise the tag "NC" encoded as a byte blob
(not as a string); if the value is present tag "V" (string) followed by the
raw value bytes (byte blob), otherwise tag "NV" (string). -/
def specExtPreimage (key : HexKey) (next : Option Node) (value : Option Bytes) : List GobItem :=
  GobItem.gstr ['E'] :: GobItem.gstr key ::
    ((match next with
      | some n => [GobItem.gstr ['C'], GobItem.gbytes n.hashB]
      | none => [GobItem.gbytes ['N'.toNat, 'C'.toNat]])
     ++ (match value with
         | some v => [GobItem.gstr ['V'], GobItem.gbytes v]
         | none => [GobItem.gstr ['N', 'V']]))

/-- Modelled from the spec (§4.2), the Branch node pre-image: tag "B"
(string), then for each of the 16 child slots in index order either tag "C"
(string) followed by the child hash (byte blob), or tag "NC" (string). -/
def specBranchPreimage (children : List (Option Node)) : List GobItem :=
  GobItem.gstr ['B'] ::
    (children.map (fun slot =>
      match slot with
      | some n => [GobItem.gstr ['C'], GobItem.gbytes n.hashB]
      | none => [GobItem.gstr ['N', 'C']])).flatten

/-- Modelled from the spec (§4.2): the pre-image of either node shape. -/
def specPreimage : Node → List GobItem
  | .ext key next value _ => specExtPreimage key next value
  | .branch children _ => specBranchPreimage children

/-- Modelled from the spec (§4.6): the Merkle path accumulated along the
lookup descent, leaf first and without the final root set. An extension on
the path contributes the singleton of its cached hash; a branch on the path
contributes its 16 child hashes in slot order with nil for empty slots. -/
def specPathInNode : Nat → HexKey → Node → Option MerklePath
  | 0, _, _ => none
  | fuel + 1, key, node =>
    match node with
    | .ext nkey next value hash =>
      if key = nkey then
        if value.isNone then none else some [[some hash]]
      else
        match commonPrefix nkey key with
        | .error _ => none
        | .ok p =>
          if p = key then none
          else if p ≠ nkey then none
          else
            match next with
            | none => none
            | some (.ext ckey cnext cvalue chash) =>
              if (key.drop p.length).headD ' ' ≠ ckey.headD ' ' then none
              else
                (specPathInNode fuel (key.drop p.length) (.ext ckey cnext cvalue chash)).map
                  (fun path => path ++ [[some hash]])
            | some (.branch ccs chash) =>
              (specPathInNode fuel (key.drop p.length) (.branch ccs chash)).map
                (fun path => path ++ [[some hash]])
    | .branch cs _ =>
      match childAt cs (key.headD ' ') with
      | none => none
      | some child =>
        (specPathInNode fuel key child).map (fun path => path ++ [childHashes cs])

/-- Modelled from the spec (§4.6): the full Merkle path of a stored key, the
descent path followed by the singleton set of the root hash. -/
def specFindMerklePath (fuel : Nat) (t : Node) (key : Bytes) : Option MerklePath :=
  (specPathInNode fuel (hexEncode key) t).map (fun path => path ++ [[some t.hashB]])

/-- The key of the extension stored at slot i of a root branch. -/
def rootSlotKey (t : Node) (i : Nat) : Option HexKey :=
  match t with
  | .branch cs _ => (getSlot cs i).map Node.keyOf
  | .ext _ _ _ _ => none

/-- The number of occupied children of the branch hanging below the
extension stored at slot i of a root branch (a non-root branch). -/
def subBranchCountAt (t : Node) (i : Nat) : Option Nat :=
  match t with
  | .branch cs _ =>
    (getSlot cs i).bind (fun n =>
      match n with
      | .ext _ (some (.branch ccs _)) _ _ => some (branchCount ccs)
      | _ => none)
  | .ext _ _ _ _ => none

theorem setSlot_self : ∀ (cs : List (Option Node)) (i : Nat) (x : Node),
    getSlot cs i = some x → setSlot cs i (some x) = cs := by
  intro cs
  induction cs with
  | nil => intro i x h; simp [getSlot] at h
  | cons hd tl ih =>
    intro i x h
    cases i with
    | zero =>
      simp only [getSlot, List.getD_cons_zero] at h
      simp [setSlot, h]
    | succ j =>
      simp only [getSlot, List.getD_cons_succ] at h
      simpa [setSlot] using ih j x h

theorem merklePathInNode_snd : ∀ (fuel : Nat) (key : HexKey) (node : Node),
    (merklePathInNode fuel key node).2 = node := by
  intro fuel
  induction fuel with
  | zero => intro key node; rfl
  | succ fuel ih =>
    intro key node
    cases node with
    | ext nkey next value hash =>
      simp only [merklePathInNode]
      split
      · split <;> rfl
      · split
        · rfl
        · split
          · rfl
          · split
            · rfl
            · split
              · rfl
              · split
                · rfl
                · split
                  all_goals
                    rename_i a b hrec
                    have h2 := congrArg Prod.snd hrec
                    rw [ih] at h2
                    have h3 : b = _ := h2.symm
                    rw [h3]
              · split
                all_goals
                  rename_i a b hrec
                  have h2 := congrArg Prod.snd hrec
                  rw [ih] at h2
                  have h3 : b = _ := h2.symm
                  rw [h3]
    | branch cs hash =>
      simp only [merklePathInNode]
      split
      · rfl
      · rename_i child hch
        split
        all_goals
          rename_i a b hrec
          have h2 := congrArg Prod.snd hrec
          rw [ih] at h2
          have h3 : b = _ := h2.symm
          rw [h3]
          show Node.branch (setSlot cs (toChildIndex (key.headD ' ')) (some child)) _ = _
          rw [setSlot_self cs _ child hch]

theorem insertToNode_of_lookup (hs : Digest) (vo : Bytes) :
    ∀ (fuel : Nat) (key : HexKey) (node : Node) (v0 : Bytes),
    lookupHex fuel key node = some v0 →
    insertToNode hs fuel key vo node = (some (GoErr.err dupKeyMsg), node) := by
  intro fuel
  induction fuel with
  | zero => intro key node v0 h; simp [lookupHex] at h
  | succ fuel ih =>
    intro key node v0 h
    cases node with
    | ext nkey next value hash =>
      simp only [lookupHex] at h
      simp only [insertToNode]
      by_cases h1 : key = nkey
      · rw [if_pos h1] at h
        rw [if_pos h1, h]
        rfl
      · rw [if_neg h1] at h
        rw [if_neg h1]
        cases hcp : commonPrefix nkey key with
        | error e => rw [hcp] at h; exact absurd h (by simp)
        | ok p =>
          rw [hcp] at h
          simp only [] at h
          simp only []
          by_cases h2 : p = nkey
          · rw [if_pos h2] at h
            rw [if_pos h2]
            cases next with
            | none => exact absurd h (by simp)
            | some child =>
              cases child with
              | ext ckey cnext cvalue chash =>
                simp only [] at h
                simp only []
                by_cases h4 : (key.drop p.length).headD ' ' = ckey.headD ' '
                · rw [if_pos h4] at h
                  rw [if_pos h4]
                  rw [ih _ _ _ h]
                · rw [if_neg h4] at h
                  exact absurd h (by simp)
              | branch ccs chash =>
                simp only [] at h
                simp only []
                rw [ih _ _ _ h]
          · rw [if_neg h2] at h
            exact absurd h (by simp)
    | branch cs hash =>
      simp only [lookupHex] at h
      simp only [insertToNode]
      cases hch : childAt cs (key.headD ' ') with
      | none => rw [hch] at h; exact absurd h (by simp)
      | some child =>
        rw [hch] at h
        simp only [] at h
        simp only []
        rw [ih _ _ _ h]
        simp only []
        rw [setSlot_self cs _ child hch]

theorem merklePathInNode_of_spec : ∀ (fuel : Nat) (key : HexKey) (node : Node) (mp : MerklePath),
    specPathInNode fuel key node = some mp →
    merklePathInNode fuel key node = (.ok mp, node) := by
  intro fuel
  induction fuel with
  | zero => intro key node mp h; simp [specPathInNode] at h
  | succ fuel ih =>
    intro key node mp h
    cases node with
    | ext nkey next value hash =>
      simp only [specPathInNode] at h
      simp only [merklePathInNode]
      by_cases h1 : key = nkey
      · rw [if_pos h1] at h
        rw [if_pos h1]
        cases value with
        | none => simp at h
        | some v =>
          simp only [Option.isNone_some, Bool.false_eq_true, if_false, Option.some.injEq] at h
          simp [h]
      · rw [if_neg h1] at h
        rw [if_neg h1]
        cases hcp : commonPrefix nkey key with
        | error e => rw [hcp] at h; exact absurd h (by simp)
        | ok p =>
          rw [hcp] at h
          simp only [] at h
          simp only []
          by_cases h2 : p = key
          · rw [if_pos h2] at h; exact absurd h (by simp)
          · rw [if_neg h2] at h
            rw [if_neg h2]
            by_cases h3 : p ≠ nkey
            · rw [if_pos h3] at h; exact absurd h (by simp)
            · rw [if_neg h3] at h
              rw [if_neg h3]
              cases next with
              | none => exact absurd h (by simp)
              | some child =>
                cases child with
                | ext ckey cnext cvalue chash =>
                  simp only [] at h
                  simp only []
                  by_cases h4 : (key.drop p.length).headD ' ' ≠ ckey.headD ' '
                  · rw [if_pos h4] at h; exact absurd h (by simp)
                  · rw [if_neg h4] at h
                    rw [if_neg h4]
                    obtain ⟨q, hq, hf⟩ := Option.map_eq_some'.mp h
                    rw [ih _ _ _ hq]
                    simp only []
                    rw [hf]
                | branch ccs chash =>
                  simp only [] at h
                  simp only []
                  obtain ⟨q, hq, hf⟩ := Option.map_eq_some'.mp h
                  rw [ih _ _ _ hq]
                  simp only []
                  rw [hf]
    | branch cs hash =>
      simp only [specPathInNode] at h
      simp only [merklePathInNode]
      cases hch : childAt cs (key.headD ' ') with
      | none => rw [hch] at h; exact absurd h (by simp)
      | some child =>
        rw [hch] at h
        simp only [] at h
        simp only []
        obtain ⟨q, hq, hf⟩ := Option.map_eq_some'.mp h
        rw [ih _ _ _ hq]
        simp only []
        rw [setSlot_self cs _ child hch, hf]

theorem specPathInNode_of_lookup : ∀ (fuel : Nat) (key : HexKey) (node : Node) (v0 : Bytes),
    lookupHex fuel key node = some v0 →
    (specPathInNode fuel key node).isSome = true := by
  intro fuel
  induction fuel with
  | zero => intro key node v0 h; simp [lookupHex] at h
  | succ fuel ih =>
    intro key node v0 h
    cases node with
    | ext nkey next value hash =>
      simp only [lookupHex] at h
      simp only [specPathInNode]
      by_cases h1 : key = nkey
      · rw [if_pos h1] at h
        rw [if_pos h1, h]
        simp
      · rw [if_neg h1] at h
        rw [if_neg h1]
        cases hcp : commonPrefix nkey key with
        | error e => rw [hcp] at h; exact absurd h (by simp)
        | ok p =>
          rw [hcp] at h
          simp only [] at h
          simp only []
          by_cases h2 : p = nkey
          · rw [if_pos h2] at h
            have h2k : ¬p = key := fun hpk => h1 (by rw [← hpk, h2])
            rw [if_neg h2k]
            rw [if_neg (show ¬p ≠ nkey from fun hc => hc h2)]
            cases next with
            | none => exact absurd h (by simp)
            | some child =>
              cases child with
              | ext ckey cnext cvalue chash =>
                simp only [] at h
                simp only []
                by_cases h4 : (key.drop p.length).headD ' ' = ckey.headD ' '
                · rw [if_pos h4] at h
                  rw [if_neg (show ¬(key.drop p.length).headD ' ' ≠ ckey.headD ' ' from fun hc => hc h4)]
                  have := ih _ _ _ h
                  simpa using this
                · rw [if_neg h4] at h
                  exact absurd h (by simp)
              | branch ccs chash =>
                simp only [] at h
                simp only []
                have := ih _ _ _ h
                simpa using this
          · rw [if_neg h2] at h
            exact absurd h (by simp)
    | branch cs hash =>
      simp only [lookupHex] at h
      simp only [specPathInNode]
      cases hch : childAt cs (key.headD ' ') with
      | none => rw [hch] at h; exact absurd h (by simp)
      | some child =>
        rw [hch] at h
        simp only [] at h
        simp only []
        have := ih _ _ _ h
        simpa using this

/-- Claim C1 is violated by the code: inserting the key set containing the
raw byte keys 0x10 and 0x1a (hex keys "10" and "1a") in its two orders
succeeds both times yet produces different root hashes, because toChildIndex
maps the letter a to slot 0, so the divide step silently overwrites one
sibling extension with the other inside NewNodeBranchWithChildren. -/
theorem C1_insert_order_changes_root_hash :
    (insertSeq gobEnc 20 [([16], [7]), ([26], [8])] (NewMerklePatriciaTrie gobEnc)).1 = none ∧
    (insertSeq gobEnc 20 [([26], [8]), ([16], [7])] (NewMerklePatriciaTrie gobEnc)).1 = none ∧
    (insertSeq gobEnc 20 [([16], [7]), ([26], [8])] (NewMerklePatriciaTrie gobEnc)).2.hashB ≠
      (insertSeq gobEnc 20 [([26], [8]), ([16], [7])] (NewMerklePatriciaTrie gobEnc)).2.hashB :=
  ⟨by decide, by decide, by decide⟩

/-- Claim C2 is violated by the code: in the trie holding the raw byte keys
k (0x6b), k1 (0x6b31) and ka (0x6b61), the key k lives at an extension that
has a value and a Branch next; Delete(k) reports success but never clears
the value, so k is still present, the root hash is unchanged, and a second
exact-match Delete(k) reports success again instead of a not-found error. -/
theorem C2_delete_exact_match_branch_next_keeps_value :
    (insertSeq gobEnc 20 [([107], [1]), ([107, 49], [2]), ([107, 97], [3])]
      (NewMerklePatriciaTrie gobEnc)).1 = none ∧
    (Delete gobEnc 20 (insertSeq gobEnc 20 [([107], [1]), ([107, 49], [2]), ([107, 97], [3])]
      (NewMerklePatriciaTrie gobEnc)).2 [107]).1 = none ∧
    lookupHex 20 (hexEncode [107])
      (Delete gobEnc 20 (insertSeq gobEnc 20 [([107], [1]), ([107, 49], [2]), ([107, 97], [3])]
        (NewMerklePatriciaTrie gobEnc)).2 [107]).2 = some [1] ∧
    (Delete gobEnc 20 (insertSeq gobEnc 20 [([107], [1]), ([107, 49], [2]), ([107, 97], [3])]
      (NewMerklePatriciaTrie gobEnc)).2 [107]).2.hashB =
      (insertSeq gobEnc 20 [([107], [1]), ([107, 49], [2]), ([107, 97], [3])]
        (NewMerklePatriciaTrie gobEnc)).2.hashB ∧
    (Delete gobEnc 20 (Delete gobEnc 20 (insertSeq gobEnc 20
        [([107], [1]), ([107, 49], [2]), ([107, 97], [3])]
        (NewMerklePatriciaTrie gobEnc)).2 [107]).2 [107]).1 = none :=
  ⟨by decide, by decide, by decide, by decide, by decide⟩

/-- Claim C3 is violated by the code: after the single successful
Insert of the raw byte key 0xab into a fresh trie, the root branch stores
the extension with key "ab" at slot 0, although the hex digit that maps to
slot 0 under the claimed mapping is the digit 0 (the letter a maps to 10):
toChildIndex sends a-f to 0-5 instead of 10-15. -/
theorem C3_branch_slot_disagrees_with_hex_digit :
    (Insert gobEnc 20 (NewMerklePatriciaTrie gobEnc) [171] [7]).1 = none ∧
    rootSlotKey (Insert gobEnc 20 (NewMerklePatriciaTrie gobEnc) [171] [7]).2 0 =
      some ['a', 'b'] ∧
    specHexDigitIndex 'a' = 10 :=
  ⟨by decide, by decide, by decide⟩

/-- Claim C4 is violated by the code: with S the singleton key 0x10 and T
the singleton key 0x1a, inserting S ∪ T and then deleting T succeeds but
leaves a root hash different from the fresh trie built from S alone (the
overwritten sibling extension has lost the pair for 0x10, and deleting 0x1a
strands an empty non-root branch). -/
theorem C4_delete_insert_duality_fails :
    (insertSeq gobEnc 20 [([16], [7]), ([26], [8])] (NewMerklePatriciaTrie gobEnc)).1 = none ∧
    (Delete gobEnc 20 (insertSeq gobEnc 20 [([16], [7]), ([26], [8])]
      (NewMerklePatriciaTrie gobEnc)).2 [26]).1 = none ∧
    (Insert gobEnc 20 (NewMerklePatriciaTrie gobEnc) [16] [7]).1 = none ∧
    (Delete gobEnc 20 (insertSeq gobEnc 20 [([16], [7]), ([26], [8])]
      (NewMerklePatriciaTrie gobEnc)).2 [26]).2.hashB ≠
      (Insert gobEnc 20 (NewMerklePatriciaTrie gobEnc) [16] [7]).2.hashB :=
  ⟨by decide, by decide, by decide, by decide⟩

/-- Claim C5 is violated by the code: after the two successful Inserts of
the raw byte keys 0x10 and 0x1a into a fresh trie, the non-root branch
below the root-slot-1 extension has exactly one occupied child (the divide
step placed both tails "0" and "a" at slot 0, one overwriting the other),
breaking the at-least-2-children invariant of spec section 3.2. -/
theorem C5_non_root_branch_with_single_child :
    (insertSeq gobEnc 20 [([16], [7]), ([26], [8])] (NewMerklePatriciaTrie gobEnc)).1 = none ∧
    subBranchCountAt
      (insertSeq gobEnc 20 [([16], [7]), ([26], [8])] (NewMerklePatriciaTrie gobEnc)).2 1 =
      some 1 :=
  ⟨by decide, by decide⟩

/-- Claim C6: for every node of either shape, the gob stream hashed to
produce the node's hash is exactly the pre-image published in spec section
4.2, including the asymmetry that an extension's absent next is marked by
"NC" as a byte blob while absent value and empty branch slots use strings. -/
theorem C6_serialize_follows_spec_preimage : ∀ n : Node, Node.serialize n = specPreimage n := by
  intro n
  cases n with
  | ext key next value hash =>
    cases next <;> cases value <;> rfl
  | branch cs hash =>
    simp only [Node.serialize, specPreimage, specBranchPreimage]
    congr 1

/-- Claim C7: Insert of a key that is already stored with a value returns
the duplicate-key error and leaves the trie completely unchanged (the very
node graph, hence all values and the root hash, is returned as it was). -/
theorem C7_insert_duplicate_key_error_trie_unchanged (hs : Digest) (fuel : Nat) (t : Node)
    (k v2 v0 : Bytes) (hk : k ≠ []) (h : lookupHex fuel (hexEncode k) t = some v0) :
    Insert hs fuel t k v2 = (some (GoErr.err dupKeyMsg), t) := by
  unfold Insert
  have hlen : ¬k.length = 0 := by
    cases k with
    | nil => exact absurd rfl hk
    | cons a l => simp
  rw [if_neg hlen]
  rw [insertToNode_of_lookup hs v2 fuel (hexEncode k) t v0 h]

/-- Witness for claim C7 at the concrete trie holding the raw byte key 0x6b. -/
theorem C7_witness :
    (([107] : Bytes) ≠ [] ∧
      lookupHex 20 (hexEncode [107])
        (Insert gobEnc 20 (NewMerklePatriciaTrie gobEnc) [107] [7]).2 = some [7]) ∧
    Insert gobEnc 20 (Insert gobEnc 20 (NewMerklePatriciaTrie gobEnc) [107] [7]).2 [107] [9] =
      (some (GoErr.err dupKeyMsg), (Insert gobEnc 20 (NewMerklePatriciaTrie gobEnc) [107] [7]).2) :=
  ⟨⟨by decide, by decide⟩,
    C7_insert_duplicate_key_error_trie_unchanged gobEnc 20
      (Insert gobEnc 20 (NewMerklePatriciaTrie gobEnc) [107] [7]).2 [107] [9] [7]
      (by decide) (by decide)⟩

/-- Claim C8 is violated by the code: the fresh trie holding only the raw
byte key 0xab stores it at slot 0, so Delete of the absent key 0x0b (hex
"0b", dispatched to the same slot 0) reaches commonPrefix with first
characters a and 0 and panics instead of returning a not-found error. -/
theorem C8_delete_missing_key_panics :
    (Insert gobEnc 20 (NewMerklePatriciaTrie gobEnc) [171] [7]).1 = none ∧
    lookupHex 20 (hexEncode [11])
      (Insert gobEnc 20 (NewMerklePatriciaTrie gobEnc) [171] [7]).2 = none ∧
    (Delete gobEnc 20 (Insert gobEnc 20 (NewMerklePatriciaTrie gobEnc) [171] [7]).2 [11]).1 =
      some (GoErr.goPanic "no common prefix") :=
  ⟨by decide, by decide, by decide⟩

/-- Claim C9: for every key stored in a trie, FindMerklePath succeeds and
returns exactly the leaf-first path described by the spec: a singleton hash
set for each extension on the lookup path, a 16-slot child-hash set with nil
entries for empty slots for each branch on the path, and the singleton set
of the root hash as the final element. -/
theorem C9_findMerklePath_returns_spec_path (fuel : Nat) (t : Node) (k v0 : Bytes)
    (hk : k ≠ []) (h : lookupHex fuel (hexEncode k) t = some v0) :
    (specFindMerklePath fuel t k).isSome = true ∧
    FindMerklePath fuel t k = (.ok ((specFindMerklePath fuel t k).getD []), t) := by
  have hs1 : (specPathInNode fuel (hexEncode k) t).isSome = true :=
    specPathInNode_of_lookup fuel (hexEncode k) t v0 h
  obtain ⟨q, hq⟩ := Option.isSome_iff_exists.mp hs1
  have hm := merklePathInNode_of_spec fuel (hexEncode k) t q hq
  have hlen : ¬k.length = 0 := by
    cases k with
    | nil => exact absurd rfl hk
    | cons a l => simp
  constructor
  · simp [specFindMerklePath, hq]
  · unfold FindMerklePath
    rw [if_neg hlen, hm]
    simp [specFindMerklePath, hq]

/-- Witness for claim C9 at the concrete trie holding only the raw byte key
"key" (0x6b6579), whose Merkle path has exactly 3 elements. -/
theorem C9_witness :
    (([107, 101, 121] : Bytes) ≠ [] ∧
      lookupHex 20 (hexEncode [107, 101, 121])
        (Insert gobEnc 20 (NewMerklePatriciaTrie gobEnc) [107, 101, 121] [7]).2 = some [7]) ∧
    ((specFindMerklePath 20
        (Insert gobEnc 20 (NewMerklePatriciaTrie gobEnc) [107, 101, 121] [7]).2
        [107, 101, 121]).isSome = true ∧
      FindMerklePath 20 (Insert gobEnc 20 (NewMerklePatriciaTrie gobEnc) [107, 101, 121] [7]).2
        [107, 101, 121] =
        (.ok ((specFindMerklePath 20
          (Insert gobEnc 20 (NewMerklePatriciaTrie gobEnc) [107, 101, 121] [7]).2
          [107, 101, 121]).getD []),
         (Insert gobEnc 20 (NewMerklePatriciaTrie gobEnc) [107, 101, 121] [7]).2)) ∧
    ((specFindMerklePath 20
        (Insert gobEnc 20 (NewMerklePatriciaTrie gobEnc) [107, 101, 121] [7]).2
        [107, 101, 121]).getD []).length = 3 :=
  ⟨⟨by decide, by decide⟩,
    C9_findMerklePath_returns_spec_path 20
      (Insert gobEnc 20 (NewMerklePatriciaTrie gobEnc) [107, 101, 121] [7]).2
      [107, 101, 121] [7] (by decide) (by decide),
    by decide⟩

/-- Claim C10: FindMerklePath modifies nothing: for every trie state, key
and outcome, the trie returned alongside the result is the input trie, with
every node, link and cached hash (hence the root hash) identical. -/
theorem C10_findMerklePath_modifies_nothing (fuel : Nat) (t : Node) (k : Bytes) :
    (FindMerklePath fuel t k).2 = t := by
  unfold FindMerklePath
  by_cases h : k.length = 0
  · rw [if_pos h]
  · rw [if_neg h]
    rcases hm : merklePathInNode fuel (hexEncode k) t with ⟨r, t2⟩
    have h2 := congrArg Prod.snd hm
    rw [merklePathInNode_snd] at h2
    have h3 : t = t2 := h2
    cases r <;> simp [← h3]

end MPT
